import Mathlib

/-!
Shallow embedding of `sync_elba_counterparties.py` (Elba → Bitrix24
counterparty synchronisation) and proofs about its reconciliation logic.

Modelling conventions:
* A JSON dictionary field is an `Option String` (`none` = key absent).
  Python truthiness of such a field (`None` and `""` are falsy) is
  captured by `pyOrStr` / `firstTruthy` below.
* Bitrix24 is modelled by an explicit destination state (`BxState`)
  holding the records created so far; `crm.*.add` assigns consecutive
  numeric ids, `crm.*.list` filtered on `UF_CRM_ELBA_ID` is a list
  filter over the stored records.
* HTTP page requests of the Elba read path are abstracted as a function
  from the requested offset to either an error (HTTPError / request
  exception) or the extracted item batch.
* The configuration / logging / schema-provisioning wrappers around the
  core (`ensure_userfields`, `get_organization_id`, env loading) are
  outside the reconciliation core and are not modelled; `runSync` starts
  where `main` has the counterparty list in hand, with the per
  counterparty contact fetch abstracted as a function.
-/

namespace ElbaSync

/-- Python `a or b or ... or default` over string-valued dictionary reads:
the first operand that is neither `None` nor `""`, else the default. -/
def pyOrStr : List (Option String) → String → String
  | [], d => d
  | a :: rest, d =>
    match a with
    | some s => if s = "" then pyOrStr rest d else s
    | none => pyOrStr rest d

/-- Python `a or b or ...` used as an optional value: `some v` with `v` the
first truthy operand, `none` when every operand is falsy. -/
def firstTruthy : List (Option String) → Option String
  | [] => none
  | a :: rest =>
    match a with
    | some s => if s = "" then firstTruthy rest else some s
    | none => firstTruthy rest

/-- Helper for `pySplit`: walks the characters keeping the current token
(in reverse); whitespace flushes the token.  Mirrors Python `str.split()`
with no arguments (split on whitespace runs, no empty tokens). -/
def splitWsAux : List Char → List Char → List String
  | [], [] => []
  | [], acc => [String.mk acc.reverse]
  | c :: cs, acc =>
    if c.isWhitespace then
      match acc with
      | [] => splitWsAux cs []
      | _ => String.mk acc.reverse :: splitWsAux cs []
    else splitWsAux cs (c :: acc)

/-- Python `str.split()` with no arguments. -/
def pySplit (s : String) : List String := splitWsAux s.toList []

/-- Function `extract_name_parts` from the source: early return on the empty
string, then positional assignment of the whitespace tokens. -/
def extract_name_parts (full_name : String) : String × String × String :=
  if full_name = "" then ("", "", "")
  else
    let parts := pySplit full_name
    let last_name := parts.getD 0 ""
    let first_name := parts.getD 1 ""
    let second_name := parts.getD 2 ""
    (last_name, first_name, second_name)

/-- Modelled from the spec: "whitespace-splitting and positional
assignment: first whitespace-delimited token → last name, second → first
name, third → middle name; any missing token yields an empty string".
Stated without the special case of the source for `""`, to compare the source
function against the spec wording. -/
def name_parts_spec (full_name : String) : String × String × String :=
  ((pySplit full_name).getD 0 "", (pySplit full_name).getD 1 "", (pySplit full_name).getD 2 "")

/-- One `{"VALUE": v, "VALUE_TYPE": t}` entry of a Bitrix multi-field. -/
structure MultiField where
  VALUE : String
  VALUE_TYPE : String
deriving DecidableEq

/-- The `contactInfo` sub-dictionary of a counterparty. -/
structure ContactInfo where
  phone : Option String := none
  phoneNumber : Option String := none
  email : Option String := none
  eMail : Option String := none
deriving DecidableEq

/-- A contact-person dictionary as read from Elba (only the keys the
script looks at). -/
structure Person where
  id : Option String := none
  personId : Option String := none
  fullName : Option String := none
  fio : Option String := none
  name : Option String := none
  phone : Option String := none
  phoneNumber : Option String := none
  email : Option String := none
  eMail : Option String := none
deriving DecidableEq

/-- A counterparty dictionary as read from Elba (only the keys the script
looks at); the three possible inline person-list keys are separate
fields. -/
structure Counterparty where
  id : Option String := none
  counterpartyId : Option String := none
  contractorId : Option String := none
  shortName : Option String := none
  name : Option String := none
  inn : Option String := none
  INN : Option String := none
  contactInfo : Option ContactInfo := none
  contacts : Option (List Person) := none
  contactPersons : Option (List Person) := none
  persons : Option (List Person) := none
deriving DecidableEq

/-- The field set sent to `crm.company.add`. -/
structure CompanyFields where
  TITLE : String
  UF_CRM_ELBA_ID : String
  UF_CRM_INN : Option String
  PHONE : Option (List MultiField)
  EMAIL : Option (List MultiField)
deriving DecidableEq

/-- The field set sent to `crm.contact.add` (`COMPANY_ID` is attached in
`main`, after the mapper). -/
structure ContactFields where
  LAST_NAME : String
  NAME : String
  SECOND_NAME : String
  UF_CRM_ELBA_ID : String
  PHONE : Option (List MultiField)
  EMAIL : Option (List MultiField)
  COMPANY_ID : Option Nat := none
deriving DecidableEq

/-- Expression `str(cp.get("id") or cp.get("counterpartyId") or cp.get("contractorId") or "")`
— the company identity key expression, repeated verbatim in `main` and in
`map_company_fields_from_cp`. -/
def cpElbaId (cp : Counterparty) : String :=
  pyOrStr [cp.id, cp.counterpartyId, cp.contractorId] ""

/-- Expression `str(person.get("id") or person.get("personId") or "")` — the derived
person external id used in `main` (both the lookup-key list and the skip
check). -/
def pidOf (p : Person) : String := pyOrStr [p.id, p.personId] ""

/-- Expression `str(person.get("id") or "")` — the person part that
`map_contact_fields_from_person` actually writes into `UF_CRM_ELBA_ID`
(note: no `personId` fallback there). -/
def personIdPart (p : Person) : String := pyOrStr [p.id] ""

/-- Function `map_company_fields_from_cp` from the source. -/
def map_company_fields_from_cp (cp : Counterparty) : CompanyFields :=
  let title := pyOrStr [cp.shortName, cp.name, cp.inn] "Без названия"
  let inn := firstTruthy [cp.inn, cp.INN]
  let ci := cp.contactInfo.getD {}
  let phone := firstTruthy [ci.phone, ci.phoneNumber]
  let email := firstTruthy [ci.email, ci.eMail]
  { TITLE := title
    UF_CRM_ELBA_ID := cpElbaId cp
    UF_CRM_INN := inn
    PHONE := phone.map (fun v => [{ VALUE := v, VALUE_TYPE := "WORK" }])
    EMAIL := email.map (fun v => [{ VALUE := v, VALUE_TYPE := "WORK" }]) }

/-- Function `map_contact_fields_from_person` from the source.  The identity key
concatenates the derived counterparty id, a colon, and the person part
derived from the `id` key alone. -/
def map_contact_fields_from_person (person : Person) (cp : Counterparty) : ContactFields :=
  let full_name := pyOrStr [person.fullName, person.fio, person.name]
      ("Контакт " ++ pyOrStr [person.id] "")
  let parts := extract_name_parts full_name
  let phone := firstTruthy [person.phone, person.phoneNumber]
  let email := firstTruthy [person.email, person.eMail]
  { LAST_NAME := parts.1
    NAME := parts.2.1
    SECOND_NAME := parts.2.2
    UF_CRM_ELBA_ID := cpElbaId cp ++ ":" ++ personIdPart person
    PHONE := phone.map (fun v => [{ VALUE := v, VALUE_TYPE := "WORK" }])
    EMAIL := email.map (fun v => [{ VALUE := v, VALUE_TYPE := "WORK" }])
    COMPANY_ID := none }

/-- Function `chunked` from the source
(`[iterable[i:i+size] for i in range(0, len(iterable), size)]`), written
with an explicit fuel equal to the list length so that it is structural
and reduces definitionally.  (The source is only ever called with
`size = 50`.) -/
def chunkedAux : Nat → List α → Nat → List (List α)
  | 0, _, _ => []
  | _ + 1, [], _ => []
  | fuel + 1, xs, size =>
    if size = 0 then []
    else xs.take size :: chunkedAux fuel (xs.drop size) size

def chunked (l : List α) (size : Nat) : List (List α) := chunkedAux l.length l size

/-- A Python dict with string keys and Bitrix-record-id values, modelled
as a lookup function. -/
abbrev SDict := String → Option Nat

def SDict.empty : SDict := fun _ => none

/-- Assignment `d[k] = v`. -/
def SDict.insert (d : SDict) (k : String) (v : Nat) : SDict :=
  fun q => if q = k then some v else d q

/-- Assignment `result[key] = row["ID"]` guarded by `if key:` for one returned row. -/
def addRow (result : SDict) (row : Nat × String) : SDict :=
  if row.2 ≠ "" then result.insert row.2 row.1 else result

/-- One chunk of `find_existing_by_elba_ids`: the `crm.*.list` call with
`filter = {"UF_CRM_ELBA_ID": group}` is modelled as a filter over the
stored `(ID, UF_CRM_ELBA_ID)` rows, then each row is written into the
result dict. -/
def addGroup (records : List (Nat × String)) (result : SDict) (group : List String) : SDict :=
  (records.filter (fun row => row.2 ∈ group)).foldl addRow result

/-- Function `find_existing_by_elba_ids` from the source: empty input short
circuit, then chunks of 50 ids, merging all returned rows into one map
(the code assumes every match is returned). -/
def find_existing_by_elba_ids (records : List (Nat × String)) (elba_ids : List String) : SDict :=
  if elba_ids.isEmpty then SDict.empty
  else (chunked elba_ids 50).foldl (addGroup records) SDict.empty

/-- The destination CRM: companies and contacts created so far (with the
fields they were created with), plus the next record id the destination
will assign. -/
structure BxState where
  companies : List (Nat × CompanyFields) := []
  contacts : List (Nat × ContactFields) := []
  nextId : Nat := 0
deriving DecidableEq

/-- Method `crm.company.add`: returns the new id and the extended destination. -/
def create_company (fields : CompanyFields) (st : BxState) : Nat × BxState :=
  (st.nextId, { st with companies := st.companies ++ [(st.nextId, fields)], nextId := st.nextId + 1 })

/-- Method `crm.contact.add`. -/
def create_contact (fields : ContactFields) (st : BxState) : Nat × BxState :=
  (st.nextId, { st with contacts := st.contacts ++ [(st.nextId, fields)], nextId := st.nextId + 1 })

/-- The `(ID, UF_CRM_ELBA_ID)` rows `crm.company.list` selects from. -/
def companiesView (st : BxState) : List (Nat × String) :=
  st.companies.map (fun r => (r.1, r.2.UF_CRM_ELBA_ID))

/-- The `(ID, UF_CRM_ELBA_ID)` rows `crm.contact.list` selects from. -/
def contactsView (st : BxState) : List (Nat × String) :=
  st.contacts.map (fun r => (r.1, r.2.UF_CRM_ELBA_ID))

/-- Total number of destination records. -/
def recordCount (st : BxState) : Nat := st.companies.length + st.contacts.length

/-- The inline person-list search of `main`
(`for key in ("contacts", "contactPersons", "persons")`, first key whose
value is a non-empty list wins). -/
def personsOf (cp : Counterparty) : List Person :=
  match cp.contacts with
  | some (p :: ps) => p :: ps
  | _ =>
    match cp.contactPersons with
    | some (p :: ps) => p :: ps
    | _ =>
      match cp.persons with
      | some (p :: ps) => p :: ps
      | _ => []

/-- Inline persons if any, else the dedicated fetch
(`get_elba_contacts_for_counterparty`, abstracted as a function of the
counterparty elba id — the organization id is fixed for the run). -/
def effectivePersons (fetch : String → List Person) (cp : Counterparty) : List Person :=
  let ps := personsOf cp
  if ps.isEmpty then fetch (cpElbaId cp) else ps

/-- The `contact_elba_ids` list comprehension of `main`: the composite of
the counterparty id, a colon, and the derived person id (`id` falling
back to `personId`), for each person whose derived id is truthy. -/
def lookupIds (cp_elba_id : String) (persons : List Person) : List String :=
  persons.filterMap
    (fun p => if pidOf p = "" then none else some (cp_elba_id ++ ":" ++ pidOf p))

/-- Body of the `for person in persons` loop of `main`: skip silently when
no derivable person id, skip when the composite key is in the lookup
result, else create the contact with `COMPANY_ID` attached.  Note that
`existing_contacts` is never updated after a creation. -/
def contact_step (cp : Counterparty) (cp_elba_id : String) (company_id : Nat)
    (existing_contacts : SDict) (st : BxState) (person : Person) : BxState :=
  let pid := pidOf person
  if pid = "" then st
  else
    let uniq := cp_elba_id ++ ":" ++ pid
    if (existing_contacts uniq).isSome then st
    else
      let contact_fields := { map_contact_fields_from_person person cp with COMPANY_ID := some company_id }
      (create_contact contact_fields st).2

/-- One iteration of the `for cp in counterparties` loop of `main`:
warn-and-skip on a counterparty without id, company lookup-or-create
(updating the in-memory map after a creation), then the contact phase.
Returns the updated companies dict, the destination state and the number
of warnings logged (the only warning inside the loop is the counterparty
skip; the source attaches `COMPANY_ID` under `if company_id:`, which in
this model always holds since destination ids are numeric). -/
def processCp (fetch : String → List Person) (existing_companies : SDict)
    (st : BxState) (cp : Counterparty) : SDict × BxState × Nat :=
  let cp_elba_id := cpElbaId cp
  if cp_elba_id = "" then (existing_companies, st, 1)
  else
    let step :=
      match existing_companies cp_elba_id with
      | some i => (i, existing_companies, st)
      | none =>
        let r := create_company (map_company_fields_from_cp cp) st
        (r.1, existing_companies.insert cp_elba_id r.1, r.2)
    let company_id := step.1
    let ec := step.2.1
    let st1 := step.2.2
    let persons := effectivePersons fetch cp
    if persons.isEmpty then (ec, st1, 0)
    else
      let contact_elba_ids := lookupIds cp_elba_id persons
      let existing_contacts := find_existing_by_elba_ids (contactsView st1) contact_elba_ids
      (ec, persons.foldl (contact_step cp cp_elba_id company_id existing_contacts) st1, 0)

/-- The counterparty loop of `main`, threading the companies dict and the
destination state and summing the logged warnings. -/
def processAll (fetch : String → List Person) : SDict → BxState → List Counterparty → SDict × BxState × Nat
  | ec, st, [] => (ec, st, 0)
  | ec, st, cp :: rest =>
    let r := processCp fetch ec st cp
    let r2 := processAll fetch r.1 r.2.1 rest
    (r2.1, r2.2.1, r.2.2 + r2.2.2)

/-- The reconciliation core of `main` once the counterparties are in hand:
early return on an empty list, the batched company lookup over all
non-empty derived ids, then the counterparty loop.  Returns the final
destination state and the total number of warnings logged. -/
def runSync (fetch : String → List Person) (counterparties : List Counterparty) (st : BxState) : BxState × Nat :=
  if counterparties.isEmpty then (st, 0)
  else
    let company_elba_ids := (counterparties.map cpElbaId).filter (fun e => e ≠ "")
    let existing_companies := find_existing_by_elba_ids (companiesView st) company_elba_ids
    let r := processAll fetch existing_companies st counterparties
    (r.2.1, r.2.2)

/-- The `while True` page loop of `fetch_all_paginated`.  `server skip` is
the outcome of the HTTP GET at offset `skip` (`Except.error` = HTTPError
or request exception, `Except.ok batch` = the item list extracted from
the response).  Returns the accumulated items and the offsets requested,
in order.  On an error the loop breaks, returning the items gathered so
far; a page shorter than `limit` also ends the loop.  `fuel` bounds the
iteration count (the source loop is unbounded; every theorem supplies
enough fuel for the loop to finish on its own). -/
def fetchPages (server : Nat → Except Unit (List α)) (limit : Nat) : Nat → Nat → List α × List Nat
  | 0, _ => ([], [])
  | fuel + 1, skip =>
    match server skip with
    | Except.error _ => ([], [skip])
    | Except.ok batch =>
      if batch.length < limit then (batch, [skip])
      else
        let r := fetchPages server limit fuel (skip + limit)
        (batch ++ r.1, skip :: r.2)

def fetch_all_paginated (server : Nat → Except Unit (List α)) (limit fuel : Nat) : List α × List Nat :=
  fetchPages server limit fuel 0

/-- A well-behaved backend serving the fixed listing `xs`: the page at
offset `skip` is `xs[skip : skip + limit]`. -/
def listServer (xs : List α) (limit : Nat) : Nat → Except Unit (List α) :=
  fun skip => Except.ok ((xs.drop skip).take limit)

/-- Functions `get_elba_counterparties` / `get_elba_contacts_for_counterparty`:
first-success-wins probing over the ordered candidate endpoints, each
abstracted as a page server.  Returns the accepted items together with
the number of candidates invoked (candidates are invoked in list order,
so a count of `n` means exactly the first `n` were invoked). -/
def probeEndpoints (limit fuel : Nat) : List (Nat → Except Unit (List α)) → List α × Nat
  | [] => ([], 0)
  | s :: rest =>
    let items := (fetch_all_paginated s limit fuel).1
    if items.isEmpty then
      let r := probeEndpoints limit fuel rest
      (r.1, r.2 + 1)
    else (items, 1)

/-! ### Concrete fixtures used by the evaluation theorems -/

/-- A contact fetch that returns no persons for any counterparty. -/
def fetchNone : String → List Person := fun _ => []

/-- A person whose external id lives in `personId` (no `id` key). -/
def personOnlyPid : Person := { personId := some "p1" }

/-- A counterparty with id `"c1"` and one inline person `personOnlyPid`. -/
def cpPersonIdOnly : Counterparty := { id := some "c1", contacts := some [personOnlyPid] }

/-- A person with external id `"p"`. -/
def pDup : Person := { id := some "p" }

/-- A counterparty whose inline person list repeats the same person. -/
def cpDup : Counterparty := { id := some "c1", contacts := some [pDup, pDup] }

/-- A person with no derivable external id at all. -/
def pNoId : Person := { fullName := some "Иванов Иван" }

/-- A counterparty with an id whose single person has no derivable id. -/
def cpSilentPerson : Counterparty := { id := some "c1", contacts := some [pNoId] }

/-- A counterparty with no derivable external id. -/
def cpNoId : Counterparty := { shortName := some "X" }

/-- A well-formed person (`id` present). -/
def pW : Person := { id := some "p7", fullName := some "Петров Пётр Петрович" }

/-- A well-formed counterparty with one inline person `pW`. -/
def cpW : Counterparty := { id := some "c9", contacts := some [pW] }

/-- The contact record `main` creates for `pW` under `cpW` (company id 0). -/
def ctRecW : ContactFields := { map_contact_fields_from_person pW cpW with COMPANY_ID := some 0 }


/-! ### Basic lemmas: strings, python or-chains -/

/-- Appending after the same `<prefixPart>:` is injective in the suffix. -/
theorem key_cancel {s a b : String} (h : s ++ ":" ++ a = s ++ ":" ++ b) : a = b := by
  have hd := congrArg String.data h
  simp only [String.data_append] at hd
  exact String.ext (List.append_cancel_left hd)

/-- A composite `<x>:<y>` key is never the empty string. -/
theorem key_ne_empty (s a : String) : s ++ ":" ++ a ≠ "" := by
  intro h
  have hd := congrArg String.data h
  simp only [String.data_append] at hd
  have hd2 : (s.data ++ ":".data) ++ a.data = [] := hd
  rcases List.append_eq_nil.mp hd2 with ⟨h1, _⟩
  rcases List.append_eq_nil.mp h1 with ⟨_, h4⟩
  exact absurd h4 (by decide)

/-- When the person has a truthy `id`, the `main` derivation (`id or
personId`) and the mapper derivation (`id` only) agree. -/
theorem pidOf_eq_personIdPart {p : Person} (h : personIdPart p ≠ "") :
    pidOf p = personIdPart p := by
  unfold pidOf personIdPart at *
  cases hid : p.id with
  | none => simp [pyOrStr, hid] at h
  | some s =>
    by_cases hs : s = ""
    · subst hs; simp [pyOrStr, hid] at h
    · simp [pyOrStr, hid, hs]

/-! ### Lemmas about `find_existing_by_elba_ids` -/

theorem addRow_some {d : SDict} {row : Nat × String} {k : String} {i : Nat}
    (h : addRow d row k = some i) :
    (k = row.2 ∧ i = row.1 ∧ row.2 ≠ "") ∨ d k = some i := by
  unfold addRow SDict.insert at h
  by_cases hne : row.2 = ""
  · rw [if_neg (by simp [hne])] at h
    exact Or.inr h
  · rw [if_pos hne] at h
    by_cases hk : k = row.2
    · rw [if_pos hk] at h
      exact Or.inl ⟨hk, (Option.some.inj h).symm, hne⟩
    · rw [if_neg hk] at h
      exact Or.inr h

theorem foldl_addRow_some {rows : List (Nat × String)} :
    ∀ {d : SDict} {k : String} {i : Nat}, rows.foldl addRow d k = some i →
      (k ≠ "" ∧ (i, k) ∈ rows) ∨ d k = some i := by
  induction rows with
  | nil => intro d k i h; exact Or.inr h
  | cons row rest ih =>
    intro d k i h
    rcases ih h with h1 | h2
    · exact Or.inl ⟨h1.1, List.mem_cons_of_mem _ h1.2⟩
    · rcases addRow_some h2 with ⟨hk, hi, hne⟩ | h3
      · refine Or.inl ⟨hk ▸ hne, ?_⟩
        have : (i, k) = row := by rw [hk, hi]
        rw [this]
        exact List.mem_cons_self _ _
      · exact Or.inr h3

theorem foldl_addRow_persist {rows : List (Nat × String)} :
    ∀ {d : SDict} {k : String} {i : Nat}, d k = some i →
      ∃ j, rows.foldl addRow d k = some j := by
  induction rows with
  | nil => intro d k i h; exact ⟨i, h⟩
  | cons row rest ih =>
    intro d k i h
    have step : ∃ j0, addRow d row k = some j0 := by
      unfold addRow SDict.insert
      by_cases hne : row.2 = ""
      · rw [if_neg (by simp [hne])]; exact ⟨i, h⟩
      · rw [if_pos hne]
        by_cases hk : k = row.2
        · rw [if_pos hk]; exact ⟨row.1, rfl⟩
        · rw [if_neg hk]; exact ⟨i, h⟩
    rcases step with ⟨j0, hj0⟩
    exact ih hj0

theorem foldl_addRow_complete {rows : List (Nat × String)} :
    ∀ {d : SDict} {i : Nat} {k : String}, (i, k) ∈ rows → k ≠ "" →
      ∃ j, rows.foldl addRow d k = some j := by
  induction rows with
  | nil => intro d i k h _; exact absurd h (List.not_mem_nil _)
  | cons row rest ih =>
    intro d i k hmem hne
    rcases List.mem_cons.mp hmem with heq | hrest
    · have hrow2 : row.2 = k := by rw [← heq]
      have hrow1 : row.1 = i := by rw [← heq]
      have step : addRow d row k = some row.1 := by
        unfold addRow SDict.insert
        rw [if_pos (by rw [hrow2]; exact hne), if_pos hrow2.symm]
      rw [List.foldl_cons]
      exact foldl_addRow_persist step
    · exact ih hrest hne

theorem foldl_addGroup_some {records : List (Nat × String)} {groups : List (List String)} :
    ∀ {d : SDict} {k : String} {i : Nat}, groups.foldl (addGroup records) d k = some i →
      ((i, k) ∈ records ∧ k ≠ "") ∨ d k = some i := by
  induction groups with
  | nil => intro d k i h; exact Or.inr h
  | cons g rest ih =>
    intro d k i h
    rcases ih h with h1 | h2
    · exact Or.inl h1
    · rcases foldl_addRow_some h2 with ⟨hne, hmem⟩ | h3
      · exact Or.inl ⟨(List.mem_filter.mp hmem).1, hne⟩
      · exact Or.inr h3

theorem foldl_addGroup_persist {records : List (Nat × String)} {groups : List (List String)} :
    ∀ {d : SDict} {k : String} {i : Nat}, d k = some i →
      ∃ j, groups.foldl (addGroup records) d k = some j := by
  induction groups with
  | nil => intro d k i h; exact ⟨i, h⟩
  | cons g rest ih =>
    intro d k i h
    have hstep : ∃ j, (records.filter (fun row => row.2 ∈ g)).foldl addRow d k = some j :=
      foldl_addRow_persist h
    rcases hstep with ⟨j0, hj0⟩
    exact ih hj0

theorem foldl_addGroup_complete {records : List (Nat × String)} {groups : List (List String)} :
    ∀ {d : SDict} {i : Nat} {k : String}, (i, k) ∈ records → k ≠ "" →
      (∃ g ∈ groups, k ∈ g) → ∃ j, groups.foldl (addGroup records) d k = some j := by
  induction groups with
  | nil => intro d i k _ _ hg; rcases hg with ⟨g, hg, _⟩; exact absurd hg (List.not_mem_nil _)
  | cons g0 rest ih =>
    intro d i k hrec hne hg
    rcases hg with ⟨g, hgmem, hkg⟩
    rcases List.mem_cons.mp hgmem with heq | hgrest
    · subst heq
      have hfil : (i, k) ∈ records.filter (fun row => row.2 ∈ g) := by
        refine List.mem_filter.mpr ⟨hrec, ?_⟩
        simp [hkg]
      rcases foldl_addRow_complete hfil hne with ⟨j0, hj0⟩
      rw [List.foldl_cons]
      exact foldl_addGroup_persist hj0
    · exact ih hrec hne ⟨g, hgrest, hkg⟩

theorem chunkedAux_cons {f : Nat} {y : α} {ys : List α} {size : Nat} (hs : size ≠ 0) :
    chunkedAux (f + 1) (y :: ys) size =
      (y :: ys).take size :: chunkedAux f ((y :: ys).drop size) size := by
  show (if size = 0 then []
      else (y :: ys).take size :: chunkedAux f ((y :: ys).drop size) size) = _
  rw [if_neg hs]

theorem chunkedAux_mem : ∀ (fuel : Nat) (l : List α) (size : Nat) (x : α),
    l.length ≤ fuel → 0 < size → x ∈ l → ∃ g ∈ chunkedAux fuel l size, x ∈ g := by
  intro fuel
  induction fuel with
  | zero =>
    intro l size x h _ hx
    have : l = [] := List.eq_nil_of_length_eq_zero (Nat.le_zero.mp h)
    subst this
    exact absurd hx (List.not_mem_nil _)
  | succ f ih =>
    intro l size x h hs hx
    match l, hx with
    | y :: ys, hx =>
      rw [chunkedAux_cons (Nat.pos_iff_ne_zero.mp hs)]
      have hsplit : x ∈ (y :: ys).take size ++ (y :: ys).drop size := by
        rw [List.take_append_drop]; exact hx
      rcases List.mem_append.mp hsplit with h1 | h2
      · exact ⟨(y :: ys).take size, List.mem_cons_self _ _, h1⟩
      · have hlen : ((y :: ys).drop size).length ≤ f := by
          rw [List.length_drop]
          omega
        rcases ih ((y :: ys).drop size) size x hlen hs h2 with ⟨g, hg, hxg⟩
        exact ⟨g, List.mem_cons_of_mem _ hg, hxg⟩

/-- Soundness of the existence lookup: a hit `k ↦ i` corresponds to a
stored destination row `(i, k)` with a non-empty key. -/
theorem find_some {records : List (Nat × String)} {elba_ids : List String} {k : String} {i : Nat}
    (h : find_existing_by_elba_ids records elba_ids k = some i) :
    (i, k) ∈ records ∧ k ≠ "" := by
  unfold find_existing_by_elba_ids at h
  by_cases he : elba_ids.isEmpty
  · rw [if_pos he] at h
    exact absurd h (by simp [SDict.empty])
  · rw [if_neg he] at h
    rcases foldl_addGroup_some h with h1 | h2
    · exact h1
    · exact absurd h2 (by simp [SDict.empty])

/-- Completeness of the existence lookup: a stored row whose non-empty key
is among the queried ids is found (mapped to some destination id). -/
theorem find_complete {records : List (Nat × String)} {elba_ids : List String} {i : Nat} {k : String}
    (hrec : (i, k) ∈ records) (hids : k ∈ elba_ids) (hne : k ≠ "") :
    ∃ j, find_existing_by_elba_ids records elba_ids k = some j := by
  unfold find_existing_by_elba_ids
  have hne2 : ¬ (elba_ids.isEmpty = true) := by
    simp only [List.isEmpty_iff]
    intro hnil
    rw [hnil] at hids
    exact absurd hids (List.not_mem_nil _)
  rw [if_neg hne2]
  rcases chunkedAux_mem elba_ids.length elba_ids 50 k (Nat.le_refl _) (by norm_num) hids with ⟨g, hg, hkg⟩
  exact foldl_addGroup_complete hrec hne ⟨g, hg, hkg⟩

/-- Contrapositive form of completeness: a miss means no stored row
carries the queried key. -/
theorem find_none_not_mem {records : List (Nat × String)} {elba_ids : List String} {k : String}
    (h : find_existing_by_elba_ids records elba_ids k = none)
    (hids : k ∈ elba_ids) (hne : k ≠ "") : ∀ i : Nat, (i, k) ∉ records := by
  intro i hrec
  rcases find_complete hrec hids hne with ⟨j, hj⟩
  rw [h] at hj
  exact Option.noConfusion hj

/-! ### C10: name decomposition -/

/-- C10: `extract_name_parts` whitespace-splits and assigns the first
token to last name, the second to first name, the third to middle name,
missing tokens yielding `""` (the refinement statement compares it to
`name_parts_spec`, written from the spec wording); the three documented
examples hold. -/
theorem c10_name_decomposition :
    (∀ s : String, extract_name_parts s = name_parts_spec s) ∧
    extract_name_parts "Ivanov Ivan Ivanovich" = ("Ivanov", "Ivan", "Ivanovich") ∧
    extract_name_parts "Ivanov" = ("Ivanov", "", "") ∧
    extract_name_parts "" = ("", "", "") := by
  refine ⟨fun s => ?_, by decide, by decide, by decide⟩
  by_cases h : s = ""
  · subst h; decide
  · simp [extract_name_parts, name_parts_spec, h]

/-! ### Lemmas about pagination and endpoint probing -/

theorem fetchPages_succ (server : Nat → Except Unit (List α)) (limit fuel skip : Nat) :
    fetchPages server limit (fuel + 1) skip =
      match server skip with
      | Except.error _ => ([], [skip])
      | Except.ok batch =>
        if batch.length < limit then (batch, [skip])
        else
          (batch ++ (fetchPages server limit fuel (skip + limit)).1,
            skip :: (fetchPages server limit fuel (skip + limit)).2) := rfl

theorem fetchPages_error {server : Nat → Except Unit (List α)} {limit fuel skip : Nat} {e : Unit}
    (h : server skip = Except.error e) :
    fetchPages server limit (fuel + 1) skip = ([], [skip]) := by
  rw [fetchPages_succ, h]

theorem fetchPages_ok {server : Nat → Except Unit (List α)} {limit fuel skip : Nat} {batch : List α}
    (h : server skip = Except.ok batch) :
    fetchPages server limit (fuel + 1) skip =
      if batch.length < limit then (batch, [skip])
      else (batch ++ (fetchPages server limit fuel (skip + limit)).1,
            skip :: (fetchPages server limit fuel (skip + limit)).2) := by
  rw [fetchPages_succ, h]

theorem fetchPages_shift (server : Nat → Except Unit (List α)) (limit : Nat) :
    ∀ (fuel skip d : Nat),
      fetchPages server limit fuel (skip + d) =
        ((fetchPages (fun s => server (s + d)) limit fuel skip).1,
          (fetchPages (fun s => server (s + d)) limit fuel skip).2.map (fun o => o + d)) := by
  intro fuel
  induction fuel with
  | zero => intro skip d; rfl
  | succ f ih =>
    intro skip d
    cases hs : server (skip + d) with
    | error e =>
      rw [fetchPages_error hs, @fetchPages_error _ (fun s => server (s + d)) limit f skip e hs]
      simp
    | ok batch =>
      rw [fetchPages_ok hs, @fetchPages_ok _ (fun s => server (s + d)) limit f skip batch hs]
      by_cases hb : batch.length < limit
      · rw [if_pos hb, if_pos hb]
        simp
      · rw [if_neg hb, if_neg hb]
        rw [show skip + d + limit = skip + limit + d from by omega, ih (skip + limit) d]
        simp

theorem listServer_shift (xs : List α) (L : Nat) :
    (fun s => listServer xs L (s + L)) = listServer (xs.drop L) L := by
  funext s
  simp [listServer, List.drop_drop, Nat.add_comm]

theorem fetch_listServer {α : Type u_1} (L : Nat) (hL : 0 < L) :
    ∀ (fuel : Nat) (xs : List α), xs.length / L + 1 ≤ fuel →
      fetch_all_paginated (listServer xs L) L fuel =
        (xs, (List.range (xs.length / L + 1)).map (fun k => k * L)) := by
  intro fuel
  induction fuel with
  | zero => intro xs h; exact absurd h (Nat.not_succ_le_zero _)
  | succ f ih =>
    intro xs h
    unfold fetch_all_paginated
    have hserver : listServer xs L 0 = Except.ok (xs.take L) := by simp [listServer]
    rw [fetchPages_ok hserver]
    by_cases hb : (xs.take L).length < L
    · have hlen : xs.length < L := by
        rw [List.length_take] at hb
        omega
      have hdiv : xs.length / L = 0 := Nat.div_eq_of_lt hlen
      rw [if_pos hb, List.take_of_length_le (Nat.le_of_lt hlen), hdiv]
      rw [show List.range 1 = [0] from rfl]
      simp
    · have hge : L ≤ xs.length := by
        rw [List.length_take] at hb
        omega
      have hdiv : xs.length / L = (xs.length - L) / L + 1 := Nat.div_eq_sub_div hL hge
      rw [if_neg hb]
      rw [fetchPages_shift (listServer xs L) L f 0 L]
      rw [listServer_shift]
      have hcond : (xs.drop L).length / L + 1 ≤ f := by
        rw [List.length_drop, ← hdiv]
        exact Nat.le_of_succ_le_succ h
      have hrec := ih (xs.drop L) hcond
      unfold fetch_all_paginated at hrec
      rw [hrec, List.length_drop]
      simp only [Prod.mk.injEq]
      constructor
      · exact List.take_append_drop L xs
      · conv_rhs => rw [hdiv, List.range_succ_eq_map]
        simp only [List.map_cons, List.map_map, Nat.zero_mul]
        refine congrArg (List.cons 0) ?_
        refine List.map_congr_left ?_
        intro a _
        simp [Function.comp, Nat.succ_mul]

theorem probe_cons_empty {s : Nat → Except Unit (List α)} {rest : List (Nat → Except Unit (List α))}
    {L fuel : Nat} (h : (fetch_all_paginated s L fuel).1 = []) :
    probeEndpoints L fuel (s :: rest) =
      ((probeEndpoints L fuel rest).1, (probeEndpoints L fuel rest).2 + 1) := by
  simp [probeEndpoints, h]

theorem probe_cons_nonempty {s : Nat → Except Unit (List α)} {rest : List (Nat → Except Unit (List α))}
    {L fuel : Nat} (h : (fetch_all_paginated s L fuel).1 ≠ []) :
    probeEndpoints L fuel (s :: rest) = ((fetch_all_paginated s L fuel).1, 1) := by
  simp only [probeEndpoints]
  rw [if_neg (by simpa [List.isEmpty_iff] using h)]

theorem fetchPages_offsets (server : Nat → Except Unit (List α)) (L : Nat) (hL : 0 < L) :
    ∀ (fuel skip : Nat), (∀ o ∈ (fetchPages server L fuel skip).2, skip ≤ o) ∧
      (fetchPages server L fuel skip).2.Pairwise (fun a b => a < b) := by
  intro fuel
  induction fuel with
  | zero =>
    intro skip
    exact ⟨fun o ho => absurd ho (List.not_mem_nil _), List.Pairwise.nil⟩
  | succ f ih =>
    intro skip
    cases hs : server skip with
    | error e =>
      rw [fetchPages_error hs]
      simp
    | ok batch =>
      rw [fetchPages_ok hs]
      by_cases hb : batch.length < L
      · rw [if_pos hb]
        simp
      · rw [if_neg hb]
        have h1 := (ih (skip + L)).1
        have h2 := (ih (skip + L)).2
        constructor
        · intro o ho
          rcases List.mem_cons.mp ho with rfl | ho2
          · exact Nat.le_refl _
          · have := h1 o ho2
            omega
        · refine List.pairwise_cons.mpr ⟨?_, h2⟩
          intro o ho
          have := h1 o ho
          omega



/-- C8: pagination over any listing `xs` with page size `L` requests the
offsets `0, L, 2L, …`, stops exactly after the first page that returns
fewer than `L` items, and returns the concatenation of all pages (the
full listing).  The pages before the last carry exactly `L` items each
and the last carries `|xs| % L < L` items; in particular 250 items with
page size 100 give 3 requests returning 100, 100 and 50 items (see the
witness). -/
theorem c8_pagination_termination {α : Type u_1} (xs : List α) (L fuel : Nat)
    (hL : 0 < L) (hfuel : xs.length / L + 1 ≤ fuel) :
    fetch_all_paginated (listServer xs L) L fuel =
      (xs, (List.range (xs.length / L + 1)).map (fun k => k * L)) ∧
    (∀ k, k < xs.length / L →
      ∃ b, listServer xs L (k * L) = Except.ok b ∧ b.length = L) ∧
    (∃ b, listServer xs L (xs.length / L * L) = Except.ok b ∧
      b.length = xs.length % L ∧ b.length < L) := by
  refine ⟨fetch_listServer L hL fuel xs hfuel, ?_, ?_⟩
  · intro k hk
    refine ⟨(xs.drop (k * L)).take L, rfl, ?_⟩
    have h1 : (k + 1) * L ≤ xs.length / L * L :=
      Nat.mul_le_mul_right L (Nat.succ_le_of_lt hk)
    have h2 : xs.length / L * L ≤ xs.length := Nat.div_mul_le_self _ _
    have h3 : (k + 1) * L = k * L + L := Nat.succ_mul k L
    rw [List.length_take, List.length_drop]
    omega
  · refine ⟨(xs.drop (xs.length / L * L)).take L, rfl, ?_⟩
    have h2 : xs.length / L * L ≤ xs.length := Nat.div_mul_le_self _ _
    have h4 : L * (xs.length / L) + xs.length % L = xs.length := Nat.div_add_mod _ _
    have h5 : L * (xs.length / L) = xs.length / L * L := Nat.mul_comm _ _
    have h6 : xs.length % L < L := Nat.mod_lt _ hL
    rw [List.length_take, List.length_drop]
    omega

set_option maxRecDepth 8192 in
/-- C8 witness: a listing of exactly 250 items with page size 100 issues
requests at offsets 0, 100, 200 and returns the whole listing. -/
theorem c8_pagination_termination_witness :
    fetch_all_paginated (listServer (List.range 250) 100) 100 4 =
      (List.range 250, [0, 100, 200]) := by
  have h := (c8_pagination_termination (List.range 250) 100 4 (by decide) (by decide)).1
  exact h.trans (by decide)

/-- C5 counterexample: the first candidate endpoint serves one full page
(100 items) and then errors on the second page; the read path of `main` then
accepts those 100 items from the erroring endpoint and stops probing
(the second candidate is never invoked, invocation count 1), whereas the
claim demands that an endpoint whose page sequence errors contribute no
accepted data, with probing proceeding to the next candidate. -/
theorem c5_counterexample :
    (fun skip => if skip = 0 then Except.ok (List.replicate 100 (7 : Nat)) else Except.error ()) 100
        = Except.error () ∧
    probeEndpoints 100 2
      [fun skip => if skip = 0 then Except.ok (List.replicate 100 (7 : Nat)) else Except.error (),
        fun _ => Except.ok [9]] = (List.replicate 100 7, 1) := by
  exact ⟨rfl, by decide⟩

/-- C5 amended: source read errors are never retried (the requested
offsets of one endpoint are strictly increasing, so no offset is ever
requested twice); an endpoint whose error arrives on its first page
contributes nothing and probing proceeds to the next candidate; but when
the error arrives after at least one full page, the items already
fetched are accepted as the listing and probing stops at that
endpoint. -/
theorem c5_error_handling_amended :
    (∀ (α : Type) (server : Nat → Except Unit (List α)) (rest : List (Nat → Except Unit (List α))) (L fuel : Nat),
        0 < fuel → server 0 = Except.error () →
        probeEndpoints L fuel (server :: rest) =
          ((probeEndpoints L fuel rest).1, (probeEndpoints L fuel rest).2 + 1)) ∧
    (∀ (α : Type) (server : Nat → Except Unit (List α)) (L fuel : Nat), 0 < L →
        (fetch_all_paginated server L fuel).2.Pairwise (fun a b => a < b)) ∧
    (∀ (α : Type) (server : Nat → Except Unit (List α)) (rest : List (Nat → Except Unit (List α))) (L fuel : Nat),
        (fetch_all_paginated server L fuel).1 ≠ [] →
        probeEndpoints L fuel (server :: rest) = ((fetch_all_paginated server L fuel).1, 1)) := by
  refine ⟨?_, ?_, ?_⟩
  · intro α server rest L fuel hfuel h
    obtain ⟨f, rfl⟩ : ∃ f, fuel = f + 1 := ⟨fuel - 1, by omega⟩
    refine probe_cons_empty ?_
    unfold fetch_all_paginated
    rw [fetchPages_error h]
  · intro α server L fuel hL
    exact (fetchPages_offsets server L hL fuel 0).2
  · intro α server rest L fuel h
    exact probe_cons_nonempty h

/-- C5 amended witness: a first-page error skips to the next candidate;
offsets are strictly increasing; a non-empty fetch is accepted. -/
theorem c5_error_handling_amended_witness :
    probeEndpoints 100 1 [fun _ => (Except.error () : Except Unit (List Nat))] = ([], 1) ∧
    (fetch_all_paginated (fun _ => (Except.error () : Except Unit (List Nat))) 100 1).2.Pairwise (fun a b => a < b) ∧
    probeEndpoints 100 1 [fun _ => (Except.ok [3] : Except Unit (List Nat))] = ([3], 1) := by
  refine ⟨?_, ?_, ?_⟩
  · have h := c5_error_handling_amended.1 Nat (fun _ => Except.error ()) [] 100 1 (by decide) rfl
    exact h.trans (by decide)
  · exact c5_error_handling_amended.2.1 Nat (fun _ => Except.error ()) 100 1 (by decide)
  · have h := c5_error_handling_amended.2.2 Nat (fun _ => Except.ok [3]) [] 100 1 (by decide)
    exact h.trans (by decide)

/-- C7: when the first two candidate endpoints yield no items and the
third yields at least one, the probing invokes exactly the first three
candidates in order (invocation count 3, so the fourth is never invoked)
and returns the items of the third candidate. -/
theorem c7_endpoint_fallback_order {α : Type u_1} (s1 s2 s3 s4 : Nat → Except Unit (List α)) (L fuel : Nat)
    (h1 : (fetch_all_paginated s1 L fuel).1 = [])
    (h2 : (fetch_all_paginated s2 L fuel).1 = [])
    (h3 : (fetch_all_paginated s3 L fuel).1 ≠ []) :
    probeEndpoints L fuel [s1, s2, s3, s4] = ((fetch_all_paginated s3 L fuel).1, 3) := by
  rw [probe_cons_empty h1, probe_cons_empty h2, probe_cons_nonempty h3]

/-- C7 witness: four concrete candidates, only the third non-empty. -/
theorem c7_endpoint_fallback_order_witness :
    probeEndpoints 100 1
      [fun _ => Except.ok ([] : List Nat), fun _ => Except.ok [],
        fun _ => Except.ok [42], fun _ => Except.ok [7]] = ([42], 3) := by
  have h := c7_endpoint_fallback_order (fun _ => Except.ok ([] : List Nat)) (fun _ => Except.ok [])
      (fun _ => Except.ok [42]) (fun _ => Except.ok [7]) 100 1 (by decide) (by decide) (by decide)
  exact h.trans (by decide)

/-! ### Lemmas about the reconciliation core -/

theorem map_company_uf (cp : Counterparty) :
    (map_company_fields_from_cp cp).UF_CRM_ELBA_ID = cpElbaId cp := rfl

theorem map_contact_uf (p : Person) (cp : Counterparty) :
    (map_contact_fields_from_person p cp).UF_CRM_ELBA_ID =
      cpElbaId cp ++ ":" ++ personIdPart p := rfl

theorem contactsView_create_company (f : CompanyFields) (st : BxState) :
    contactsView (create_company f st).2 = contactsView st := rfl

theorem companiesView_mem {st : BxState} {i : Nat} {k : String}
    (h : (i, k) ∈ companiesView st) :
    ∃ f, (i, f) ∈ st.companies ∧ f.UF_CRM_ELBA_ID = k := by
  rcases List.mem_map.mp h with ⟨r, hr, heq⟩
  have h1 : r.1 = i := congrArg Prod.fst heq
  have h2 : r.2.UF_CRM_ELBA_ID = k := congrArg Prod.snd heq
  refine ⟨r.2, ?_, h2⟩
  rw [← h1]
  exact hr

theorem contactsView_mem {st : BxState} {i : Nat} {k : String}
    (h : (i, k) ∈ contactsView st) :
    ∃ f, (i, f) ∈ st.contacts ∧ f.UF_CRM_ELBA_ID = k := by
  rcases List.mem_map.mp h with ⟨r, hr, heq⟩
  have h1 : r.1 = i := congrArg Prod.fst heq
  have h2 : r.2.UF_CRM_ELBA_ID = k := congrArg Prod.snd heq
  refine ⟨r.2, ?_, h2⟩
  rw [← h1]
  exact hr

theorem mem_contactsView {st : BxState} {r : Nat × ContactFields} (h : r ∈ st.contacts) :
    (r.1, r.2.UF_CRM_ELBA_ID) ∈ contactsView st :=
  List.mem_map_of_mem _ h

theorem contact_step_eq (cp : Counterparty) (cpId : String) (cid : Nat) (exCt : SDict)
    (st : BxState) (p : Person) :
    contact_step cp cpId cid exCt st p =
      if pidOf p = "" then st
      else if (exCt (cpId ++ ":" ++ pidOf p)).isSome then st
      else (create_contact
        { map_contact_fields_from_person p cp with COMPANY_ID := some cid } st).2 := rfl

/-- Full description of the contact creation fold of one counterparty
iteration: companies untouched, contacts extended by one record per
created person; the created persons form a sublist `pss` of the person
list, each with a truthy derived id and a lookup miss on its composite
key; the appended fields are exactly the mapped fields with `COMPANY_ID`
attached, and the new destination ids lie in the fresh id band. -/
theorem contactFold_spec (cp : Counterparty) (cpId : String) (cid : Nat) (exCt : SDict) :
    ∀ (ps : List Person) (st : BxState),
      ∃ (pss : List Person) (lc : List (Nat × ContactFields)),
        (ps.foldl (contact_step cp cpId cid exCt) st).companies = st.companies ∧
        (ps.foldl (contact_step cp cpId cid exCt) st).contacts = st.contacts ++ lc ∧
        st.nextId ≤ (ps.foldl (contact_step cp cpId cid exCt) st).nextId ∧
        pss.Sublist ps ∧
        (∀ p ∈ pss, pidOf p ≠ "" ∧ exCt (cpId ++ ":" ++ pidOf p) = none) ∧
        lc.map (fun q => q.2) =
          pss.map (fun p => { map_contact_fields_from_person p cp with COMPANY_ID := some cid }) ∧
        (∀ q ∈ lc, st.nextId ≤ q.1 ∧ q.1 < (ps.foldl (contact_step cp cpId cid exCt) st).nextId) := by
  intro ps
  induction ps with
  | nil =>
    intro st
    exact ⟨[], [], rfl, by simp, Nat.le_refl _, List.Sublist.refl _,
      fun p hp => absurd hp (List.not_mem_nil _), by simp,
      fun q hq => absurd hq (List.not_mem_nil _)⟩
  | cons p rest ih =>
    intro st
    rw [List.foldl_cons]
    by_cases hpid : pidOf p = ""
    · have hstep : contact_step cp cpId cid exCt st p = st := by
        rw [contact_step_eq, if_pos hpid]
      rw [hstep]
      rcases ih st with ⟨pss, lc, h1, h2, h3, h4, h5, h6, h7⟩
      exact ⟨pss, lc, h1, h2, h3, h4.cons _, h5, h6, h7⟩
    · by_cases hex : (exCt (cpId ++ ":" ++ pidOf p)).isSome
      · have hstep : contact_step cp cpId cid exCt st p = st := by
          rw [contact_step_eq, if_neg hpid, if_pos hex]
        rw [hstep]
        rcases ih st with ⟨pss, lc, h1, h2, h3, h4, h5, h6, h7⟩
        exact ⟨pss, lc, h1, h2, h3, h4.cons _, h5, h6, h7⟩
      · have hstep : contact_step cp cpId cid exCt st p =
            (create_contact { map_contact_fields_from_person p cp with COMPANY_ID := some cid } st).2 := by
          rw [contact_step_eq, if_neg hpid, if_neg hex]
        rw [hstep]
        rcases ih (create_contact { map_contact_fields_from_person p cp with COMPANY_ID := some cid } st).2
          with ⟨pss, lc, h1, h2, h3, h4, h5, h6, h7⟩
        have hd : (create_contact { map_contact_fields_from_person p cp with COMPANY_ID := some cid } st).2.nextId
            = st.nextId + 1 := rfl
        refine ⟨p :: pss,
          (st.nextId, { map_contact_fields_from_person p cp with COMPANY_ID := some cid }) :: lc,
          ?_, ?_, ?_, h4.cons₂ _, ?_, ?_, ?_⟩
        · rw [h1]; rfl
        · rw [h2]
          show st.contacts ++ [(st.nextId, _)] ++ lc = st.contacts ++ _ :: lc
          rw [List.append_assoc]
          rfl
        · omega
        · intro q hq
          rcases List.mem_cons.mp hq with rfl | hq2
          · exact ⟨hpid, Option.not_isSome_iff_eq_none.mp hex⟩
          · exact h5 q hq2
        · simp only [List.map_cons, h6]
        · intro q hq
          rcases List.mem_cons.mp hq with rfl | hq2
          · exact ⟨Nat.le_refl _, by omega⟩
          · rcases h7 q hq2 with ⟨ha, hb⟩
            exact ⟨by omega, hb⟩

theorem processCp_skip {fetch : String → List Person} {ec : SDict} {st : BxState} {cp : Counterparty}
    (h : cpElbaId cp = "") : processCp fetch ec st cp = (ec, st, 1) := by
  simp only [processCp]
  rw [if_pos h]

theorem processCp_found {fetch : String → List Person} {ec : SDict} {st : BxState} {cp : Counterparty}
    {i : Nat} (h : cpElbaId cp ≠ "") (hec : ec (cpElbaId cp) = some i) :
    processCp fetch ec st cp =
      (if (effectivePersons fetch cp).isEmpty then (ec, st, 0)
        else (ec, (effectivePersons fetch cp).foldl
          (contact_step cp (cpElbaId cp) i
            (find_existing_by_elba_ids (contactsView st)
              (lookupIds (cpElbaId cp) (effectivePersons fetch cp)))) st, 0)) := by
  simp only [processCp]
  rw [if_neg h, hec]

theorem processCp_create {fetch : String → List Person} {ec : SDict} {st : BxState} {cp : Counterparty}
    (h : cpElbaId cp ≠ "") (hec : ec (cpElbaId cp) = none) :
    processCp fetch ec st cp =
      (if (effectivePersons fetch cp).isEmpty
        then (ec.insert (cpElbaId cp) st.nextId,
          (create_company (map_company_fields_from_cp cp) st).2, 0)
        else (ec.insert (cpElbaId cp) st.nextId,
          (effectivePersons fetch cp).foldl
            (contact_step cp (cpElbaId cp) st.nextId
              (find_existing_by_elba_ids
                (contactsView (create_company (map_company_fields_from_cp cp) st).2)
                (lookupIds (cpElbaId cp) (effectivePersons fetch cp))))
            (create_company (map_company_fields_from_cp cp) st).2, 0)) := by
  simp only [processCp]
  rw [if_neg h, hec]
  rfl

theorem processCp_warn (fetch : String → List Person) (ec : SDict) (st : BxState) (cp : Counterparty) :
    (processCp fetch ec st cp).2.2 = if cpElbaId cp = "" then 1 else 0 := by
  by_cases h : cpElbaId cp = ""
  · rw [processCp_skip h, if_pos h]
  · rw [if_neg h]
    cases hec : ec (cpElbaId cp) with
    | none =>
      rw [processCp_create h hec]
      by_cases hp : (effectivePersons fetch cp).isEmpty
      · rw [if_pos hp]
      · rw [if_neg hp]
    | some i =>
      rw [processCp_found h hec]
      by_cases hp : (effectivePersons fetch cp).isEmpty
      · rw [if_pos hp]
      · rw [if_neg hp]

/-- Full description of one counterparty iteration (non-skip case):
warnings 0; the companies list extended by the created company (if the
lookup missed); the dict untouched or extended by the created company
key; the contacts extended per `contactFold_spec`, against the lookup
snapshot taken over the destination contacts at the start of the
iteration. -/
theorem processCp_spec (fetch : String → List Person) (ec : SDict) (st : BxState) (cp : Counterparty)
    (h : cpElbaId cp ≠ "") :
    ∃ (companyId : Nat) (lco : List (Nat × CompanyFields)) (pss : List Person)
      (lc : List (Nat × ContactFields)),
      (processCp fetch ec st cp).2.2 = 0 ∧
      (processCp fetch ec st cp).2.1.companies = st.companies ++ lco ∧
      (processCp fetch ec st cp).2.1.contacts = st.contacts ++ lc ∧
      st.nextId ≤ (processCp fetch ec st cp).2.1.nextId ∧
      ((ec (cpElbaId cp) = some companyId ∧ lco = [] ∧ (processCp fetch ec st cp).1 = ec) ∨
        (ec (cpElbaId cp) = none ∧ companyId = st.nextId ∧
          lco = [(st.nextId, map_company_fields_from_cp cp)] ∧
          (processCp fetch ec st cp).1 = ec.insert (cpElbaId cp) companyId)) ∧
      (∀ q ∈ lco, q.1 = st.nextId ∧ q.1 < (processCp fetch ec st cp).2.1.nextId) ∧
      pss.Sublist (effectivePersons fetch cp) ∧
      (∀ p ∈ pss, pidOf p ≠ "" ∧
        find_existing_by_elba_ids (contactsView st)
          (lookupIds (cpElbaId cp) (effectivePersons fetch cp))
          (cpElbaId cp ++ ":" ++ pidOf p) = none) ∧
      lc.map (fun q => q.2) =
        pss.map (fun p => { map_contact_fields_from_person p cp with COMPANY_ID := some companyId }) ∧
      (∀ q ∈ lc, st.nextId + lco.length ≤ q.1 ∧ q.1 < (processCp fetch ec st cp).2.1.nextId) := by
  cases hec : ec (cpElbaId cp) with
  | some i =>
    rw [processCp_found h hec]
    by_cases hp : (effectivePersons fetch cp).isEmpty
    · rw [if_pos hp]
      refine ⟨i, [], [], [], rfl, by simp, by simp, Nat.le_refl _,
        Or.inl ⟨rfl, rfl, rfl⟩, fun q hq => absurd hq (List.not_mem_nil _),
        List.nil_sublist _, fun p hp2 => absurd hp2 (List.not_mem_nil _), by simp,
        fun q hq => absurd hq (List.not_mem_nil _)⟩
    · rw [if_neg hp]
      rcases contactFold_spec cp (cpElbaId cp) i
          (find_existing_by_elba_ids (contactsView st)
            (lookupIds (cpElbaId cp) (effectivePersons fetch cp)))
          (effectivePersons fetch cp) st with ⟨pss, lc, h1, h2, h3, h4, h5, h6, h7⟩
      refine ⟨i, [], pss, lc, rfl, by simpa using h1, h2, h3,
        Or.inl ⟨rfl, rfl, rfl⟩, fun q hq => absurd hq (List.not_mem_nil _),
        h4, h5, h6, ?_⟩
      intro q hq
      rcases h7 q hq with ⟨ha, hb⟩
      exact ⟨by simpa using ha, hb⟩
  | none =>
    rw [processCp_create h hec]
    by_cases hp : (effectivePersons fetch cp).isEmpty
    · rw [if_pos hp]
      dsimp only
      refine ⟨st.nextId, [(st.nextId, map_company_fields_from_cp cp)], [], [], rfl, rfl,
        by simp [create_company],
        Nat.le_succ _, Or.inr ⟨rfl, rfl, rfl, rfl⟩, ?_,
        List.nil_sublist _, fun p hp2 => absurd hp2 (List.not_mem_nil _), by simp,
        fun q hq => absurd hq (List.not_mem_nil _)⟩
      intro q hq
      rcases List.mem_cons.mp hq with rfl | hq2
      · exact ⟨rfl, Nat.lt_succ_self _⟩
      · exact absurd hq2 (List.not_mem_nil _)
    · rw [if_neg hp]
      dsimp only
      rcases contactFold_spec cp (cpElbaId cp) st.nextId
          (find_existing_by_elba_ids
            (contactsView (create_company (map_company_fields_from_cp cp) st).2)
            (lookupIds (cpElbaId cp) (effectivePersons fetch cp)))
          (effectivePersons fetch cp)
          (create_company (map_company_fields_from_cp cp) st).2
          with ⟨pss, lc, h1, h2, h3, h4, h5, h6, h7⟩
      have hnid : (create_company (map_company_fields_from_cp cp) st).2.nextId = st.nextId + 1 := rfl
      refine ⟨st.nextId, [(st.nextId, map_company_fields_from_cp cp)], pss, lc, rfl,
        by rw [h1]; rfl, by rw [h2]; rfl, by omega,
        Or.inr ⟨rfl, rfl, rfl, rfl⟩, ?_, h4, ?_, h6, ?_⟩
      · intro q hq
        rcases List.mem_cons.mp hq with rfl | hq2
        · refine ⟨rfl, ?_⟩
          omega
        · exact absurd hq2 (List.not_mem_nil _)
      · intro p hp2
        rcases h5 p hp2 with ⟨ha, hb⟩
        refine ⟨ha, ?_⟩
        rw [contactsView_create_company] at hb
        exact hb
      · intro q hq
        rcases h7 q hq with ⟨ha, hb⟩
        constructor
        · simp only [List.length_cons, List.length_nil]
          omega
        · exact hb

theorem SDict.insert_self (d : SDict) (k : String) (v : Nat) : d.insert k v k = some v := by
  unfold SDict.insert
  rw [if_pos rfl]

theorem SDict.insert_ne (d : SDict) (k : String) (v : Nat) {q : String} (h : q ≠ k) :
    d.insert k v q = d q := by
  unfold SDict.insert
  rw [if_neg h]

theorem key_injective (s : String) : Function.Injective (fun t => s ++ ":" ++ t) := by
  intro a b h
  exact key_cancel h

theorem lookupIds_eq_map {cpId : String} :
    ∀ {ps : List Person}, (∀ p ∈ ps, pidOf p ≠ "") →
      lookupIds cpId ps = ps.map (fun p => cpId ++ ":" ++ pidOf p) := by
  intro ps
  induction ps with
  | nil => intro _; rfl
  | cons p rest ih =>
    intro h
    have hp := h p (List.mem_cons_self _ _)
    show List.filterMap _ (p :: rest) = _
    rw [List.filterMap_cons]
    simp only [hp, if_false, ite_false]
    exact congrArg (List.cons _) (ih (fun q hq => h q (List.mem_cons_of_mem _ hq)))

/-- Created-record provenance over the whole counterparty loop: every
company appended by the loop is the mapped field set of some input
counterparty with a truthy derived id; every contact appended is the
mapped field set of some person of some input counterparty (with
`COMPANY_ID` attached) whose derived person id is truthy. -/
theorem processAll_created (fetch : String → List Person) :
    ∀ (cps : List Counterparty) (ec : SDict) (st : BxState),
      ∃ (lco : List (Nat × CompanyFields)) (lct : List (Nat × ContactFields)),
        (processAll fetch ec st cps).2.1.companies = st.companies ++ lco ∧
        (processAll fetch ec st cps).2.1.contacts = st.contacts ++ lct ∧
        st.nextId ≤ (processAll fetch ec st cps).2.1.nextId ∧
        (∀ r ∈ lco, ∃ cp ∈ cps, r.2 = map_company_fields_from_cp cp ∧ cpElbaId cp ≠ "") ∧
        (∀ r ∈ lct, ∃ cp ∈ cps, ∃ p ∈ effectivePersons fetch cp, ∃ c : Nat,
          pidOf p ≠ "" ∧ cpElbaId cp ≠ "" ∧
          r.2 = { map_contact_fields_from_person p cp with COMPANY_ID := some c }) := by
  intro cps
  induction cps with
  | nil =>
    intro ec st
    refine ⟨[], [], ?_, ?_, Nat.le_refl _,
      fun r hr => absurd hr (List.not_mem_nil _),
      fun r hr => absurd hr (List.not_mem_nil _)⟩
    · show st.companies = st.companies ++ []
      simp
    · show st.contacts = st.contacts ++ []
      simp
  | cons cp rest ih =>
    intro ec st
    by_cases h : cpElbaId cp = ""
    · have hstate : (processAll fetch ec st (cp :: rest)).2.1 =
          (processAll fetch ec st rest).2.1 := by
        show (processAll fetch (processCp fetch ec st cp).1 (processCp fetch ec st cp).2.1 rest).2.1 = _
        rw [processCp_skip h]
      rw [hstate]
      rcases ih ec st with ⟨lco, lct, h1, h2, h3, h4, h5⟩
      refine ⟨lco, lct, h1, h2, h3, ?_, ?_⟩
      · intro r hr
        rcases h4 r hr with ⟨cp2, hcp2, hx⟩
        exact ⟨cp2, List.mem_cons_of_mem _ hcp2, hx⟩
      · intro r hr
        rcases h5 r hr with ⟨cp2, hcp2, hx⟩
        exact ⟨cp2, List.mem_cons_of_mem _ hcp2, hx⟩
    · rcases processCp_spec fetch ec st cp h with
        ⟨cid, lco1, pss, lc1, hw, hco, hct, hnext, hdisj, hlco, hsub, hcond, hmap, hlc⟩
      have hstate : (processAll fetch ec st (cp :: rest)).2.1 =
          (processAll fetch (processCp fetch ec st cp).1 (processCp fetch ec st cp).2.1 rest).2.1 := rfl
      rw [hstate]
      rcases ih (processCp fetch ec st cp).1 (processCp fetch ec st cp).2.1 with
        ⟨lco2, lct2, g1, g2, g3, g4, g5⟩
      refine ⟨lco1 ++ lco2, lc1 ++ lct2, ?_, ?_, ?_, ?_, ?_⟩
      · rw [g1, hco, List.append_assoc]
      · rw [g2, hct, List.append_assoc]
      · exact Nat.le_trans hnext g3
      · intro r hr
        rcases List.mem_append.mp hr with hr1 | hr2
        · rcases hdisj with ⟨_, hl, _⟩ | ⟨_, _, hl, _⟩
          · rw [hl] at hr1
            exact absurd hr1 (List.not_mem_nil _)
          · rw [hl] at hr1
            rcases List.mem_cons.mp hr1 with rfl | hr3
            · exact ⟨cp, List.mem_cons_self _ _, rfl, h⟩
            · exact absurd hr3 (List.not_mem_nil _)
        · rcases g4 r hr2 with ⟨cp2, hcp2, hx⟩
          exact ⟨cp2, List.mem_cons_of_mem _ hcp2, hx⟩
      · intro r hr
        rcases List.mem_append.mp hr with hr1 | hr2
        · have hr2m : r.2 ∈ lc1.map (fun q => q.2) := List.mem_map_of_mem _ hr1
          rw [hmap] at hr2m
          rcases List.mem_map.mp hr2m with ⟨p, hp, heq⟩
          exact ⟨cp, List.mem_cons_self _ _, p, hsub.subset hp, cid,
            (hcond p hp).1, h, heq.symm⟩
        · rcases g5 r hr2 with ⟨cp2, hcp2, hx⟩
          exact ⟨cp2, List.mem_cons_of_mem _ hcp2, hx⟩

/-- Parent linkage over the whole counterparty loop: every appended
contact carries `COMPANY_ID = some c` where `c` is a destination company
whose identity key is the counterparty prefix of the contact key, and
that company either pre-existed (was found by lookup) or was created
earlier in the run (its id is smaller than the contact id). -/
theorem processAll_parent_link (fetch : String → List Person) :
    ∀ (cps : List Counterparty) (ec : SDict) (st : BxState),
      (∀ k c, ec k = some c → ∃ f, (c, f) ∈ st.companies ∧ f.UF_CRM_ELBA_ID = k) →
      ∃ (lco : List (Nat × CompanyFields)) (lct : List (Nat × ContactFields)),
        (processAll fetch ec st cps).2.1.companies = st.companies ++ lco ∧
        (processAll fetch ec st cps).2.1.contacts = st.contacts ++ lct ∧
        st.nextId ≤ (processAll fetch ec st cps).2.1.nextId ∧
        (∀ r ∈ lct, st.nextId ≤ r.1 ∧
          ∃ c f, r.2.COMPANY_ID = some c ∧
            (c, f) ∈ (processAll fetch ec st cps).2.1.companies ∧
            (∃ pid, r.2.UF_CRM_ELBA_ID = f.UF_CRM_ELBA_ID ++ ":" ++ pid) ∧
            ((c, f) ∈ st.companies ∨ c < r.1)) := by
  intro cps
  induction cps with
  | nil =>
    intro ec st _
    refine ⟨[], [], ?_, ?_, Nat.le_refl _, fun r hr => absurd hr (List.not_mem_nil _)⟩
    · show st.companies = st.companies ++ []
      simp
    · show st.contacts = st.contacts ++ []
      simp
  | cons cp rest ih =>
    intro ec st hec
    by_cases h : cpElbaId cp = ""
    · have hstate : processAll fetch ec st (cp :: rest) =
          ((processAll fetch ec st rest).1, (processAll fetch ec st rest).2.1,
            1 + (processAll fetch ec st rest).2.2) := by
        show ((processAll fetch (processCp fetch ec st cp).1 (processCp fetch ec st cp).2.1 rest).1,
          (processAll fetch (processCp fetch ec st cp).1 (processCp fetch ec st cp).2.1 rest).2.1,
          (processCp fetch ec st cp).2.2 +
            (processAll fetch (processCp fetch ec st cp).1 (processCp fetch ec st cp).2.1 rest).2.2) = _
        rw [processCp_skip h]
      rw [hstate]
      exact ih ec st hec
    · rcases processCp_spec fetch ec st cp h with
        ⟨cid, lco1, pss, lc1, hw, hco, hct, hnext, hdisj, hlco, hsub, hcond, hmap, hlc⟩
      -- the company backing this iteration
      have hcompany : ∃ f, (cid, f) ∈ (processCp fetch ec st cp).2.1.companies ∧
          f.UF_CRM_ELBA_ID = cpElbaId cp ∧
          ((cid, f) ∈ st.companies ∨ (cid = st.nextId ∧ lco1.length = 1)) := by
        rcases hdisj with ⟨he, hl, _⟩ | ⟨he, hcid, hl, _⟩
        · rcases hec _ _ he with ⟨f, hf, hfk⟩
          refine ⟨f, ?_, hfk, Or.inl hf⟩
          rw [hco]
          exact List.mem_append_left _ hf
        · refine ⟨map_company_fields_from_cp cp, ?_, map_company_uf cp,
            Or.inr ⟨hcid, by rw [hl]; rfl⟩⟩
          rw [hco, hl, hcid]
          exact List.mem_append_right _ (List.mem_cons_self _ _)
      -- dict invariant for the tail
      have hec2 : ∀ k c, (processCp fetch ec st cp).1 k = some c →
          ∃ f, (c, f) ∈ (processCp fetch ec st cp).2.1.companies ∧ f.UF_CRM_ELBA_ID = k := by
        intro k c hk
        rcases hdisj with ⟨_, _, hd⟩ | ⟨_, hcid, hl, hd⟩
        · rw [hd] at hk
          rcases hec _ _ hk with ⟨f, hf, hfk⟩
          refine ⟨f, ?_, hfk⟩
          rw [hco]
          exact List.mem_append_left _ hf
        · rw [hd] at hk
          by_cases hkq : k = cpElbaId cp
          · subst hkq
            rw [SDict.insert_self] at hk
            have hc : c = cid := (Option.some.inj hk).symm
            subst hc
            refine ⟨map_company_fields_from_cp cp, ?_, map_company_uf cp⟩
            rw [hco, hl, hcid]
            exact List.mem_append_right _ (List.mem_cons_self _ _)
          · rw [SDict.insert_ne _ _ _ hkq] at hk
            rcases hec _ _ hk with ⟨f, hf, hfk⟩
            refine ⟨f, ?_, hfk⟩
            rw [hco]
            exact List.mem_append_left _ hf
      have hstate : (processAll fetch ec st (cp :: rest)).2.1 =
          (processAll fetch (processCp fetch ec st cp).1 (processCp fetch ec st cp).2.1 rest).2.1 := rfl
      rw [hstate]
      rcases ih (processCp fetch ec st cp).1 (processCp fetch ec st cp).2.1 hec2 with
        ⟨lco2, lct2, g1, g2, g3, g4⟩
      refine ⟨lco1 ++ lco2, lc1 ++ lct2, ?_, ?_, Nat.le_trans hnext g3, ?_⟩
      · rw [g1, hco, List.append_assoc]
      · rw [g2, hct, List.append_assoc]
      · intro r hr
        rcases List.mem_append.mp hr with hr1 | hr2
        · rcases hlc r hr1 with ⟨hband, _⟩
          rcases hcompany with ⟨f, hfmem, hfk, hford⟩
          have hr2m : r.2 ∈ lc1.map (fun q => q.2) := List.mem_map_of_mem _ hr1
          rw [hmap] at hr2m
          rcases List.mem_map.mp hr2m with ⟨p, hp, heq⟩
          refine ⟨by omega, cid, f, ?_, ?_, ⟨personIdPart p, ?_⟩, ?_⟩
          · rw [← heq]
          · rw [g1]
            exact List.mem_append_left _ hfmem
          · rw [← heq, hfk]
            rfl
          · rcases hford with hin | ⟨hcid, hlen⟩
            · exact Or.inl hin
            · refine Or.inr ?_
              omega
        · rcases g4 r hr2 with ⟨hband, c, f, hcf, hmem, hpid, hord⟩
          refine ⟨Nat.le_trans hnext hband, c, f, hcf, hmem, hpid, ?_⟩
          rcases hord with hin | hlt
          · rw [hco] at hin
            rcases List.mem_append.mp hin with hin1 | hin2
            · exact Or.inl hin1
            · rcases hlco (c, f) hin2 with ⟨hcnid, hclt⟩
              refine Or.inr ?_
              have : c = st.nextId := hcnid
              omega
          · exact Or.inr hlt

/-- Company-key uniqueness over the whole counterparty loop: the keys of
the companies created in one run are pairwise distinct and each was a
miss in the in-memory map at loop entry (lookup-before-create plus the
immediate in-memory update after each creation). -/
theorem processAll_company_keys (fetch : String → List Person) :
    ∀ (cps : List Counterparty) (ec : SDict) (st : BxState),
      ∃ (lco : List (Nat × CompanyFields)),
        (processAll fetch ec st cps).2.1.companies = st.companies ++ lco ∧
        (lco.map (fun r => r.2.UF_CRM_ELBA_ID)).Nodup ∧
        (∀ r ∈ lco, ec (r.2.UF_CRM_ELBA_ID) = none ∧ r.2.UF_CRM_ELBA_ID ≠ "") := by
  intro cps
  induction cps with
  | nil =>
    intro ec st
    refine ⟨[], ?_, List.nodup_nil, fun r hr => absurd hr (List.not_mem_nil _)⟩
    show st.companies = st.companies ++ []
    simp
  | cons cp rest ih =>
    intro ec st
    by_cases h : cpElbaId cp = ""
    · have hstate : (processAll fetch ec st (cp :: rest)).2.1 =
          (processAll fetch ec st rest).2.1 := by
        show (processAll fetch (processCp fetch ec st cp).1 (processCp fetch ec st cp).2.1 rest).2.1 = _
        rw [processCp_skip h]
      rw [hstate]
      exact ih ec st
    · rcases processCp_spec fetch ec st cp h with
        ⟨cid, lco1, pss, lc1, hw, hco, hct, hnext, hdisj, hlco, hsub, hcond, hmap, hlc⟩
      have hstate : (processAll fetch ec st (cp :: rest)).2.1 =
          (processAll fetch (processCp fetch ec st cp).1 (processCp fetch ec st cp).2.1 rest).2.1 := rfl
      rw [hstate]
      rcases ih (processCp fetch ec st cp).1 (processCp fetch ec st cp).2.1 with ⟨lco2, g1, g2, g3⟩
      rcases hdisj with ⟨he, hl, hd⟩ | ⟨he, hcid, hl, hd⟩
      · -- lookup hit: no company created here
        subst hl
        refine ⟨lco2, ?_, g2, ?_⟩
        · rw [g1, hco]
          simp
        · intro r hr
          rcases g3 r hr with ⟨hnone, hne⟩
          rw [hd] at hnone
          exact ⟨hnone, hne⟩
      · -- creation: key of the new company is the counterparty key
        subst hl
        refine ⟨(st.nextId, map_company_fields_from_cp cp) :: lco2, ?_, ?_, ?_⟩
        · rw [g1, hco, List.append_assoc]
          rfl
        · rw [List.map_cons]
          refine List.nodup_cons.mpr ⟨?_, g2⟩
          intro hmem
          rcases List.mem_map.mp hmem with ⟨r, hr, hkey⟩
          rcases g3 r hr with ⟨hnone, _⟩
          rw [hd, hkey, map_company_uf, SDict.insert_self] at hnone
          exact Option.noConfusion hnone
        · intro r hr
          rcases List.mem_cons.mp hr with rfl | hr2
          · exact ⟨he, by rw [map_company_uf]; exact h⟩
          · rcases g3 r hr2 with ⟨hnone, hne⟩
            rw [hd] at hnone
            by_cases hkq : r.2.UF_CRM_ELBA_ID = cpElbaId cp
            · rw [hkq, SDict.insert_self] at hnone
              exact Option.noConfusion hnone
            · rw [SDict.insert_ne _ _ _ hkq] at hnone
              exact ⟨hnone, hne⟩

/-- Contact-key uniqueness over the whole counterparty loop, under the
hypothesis that every person of every processed counterparty carries a
truthy `id` and that the person ids are distinct within each person
list: the keys of the contacts created in one run are pairwise distinct
and absent from the destination at run start. -/
theorem processAll_contact_keys (fetch : String → List Person) :
    ∀ (cps : List Counterparty) (ec : SDict) (st : BxState),
      (∀ cp ∈ cps, cpElbaId cp ≠ "" →
        (∀ p ∈ effectivePersons fetch cp, personIdPart p ≠ "") ∧
        ((effectivePersons fetch cp).map personIdPart).Nodup) →
      ∃ (lct : List (Nat × ContactFields)),
        (processAll fetch ec st cps).2.1.contacts = st.contacts ++ lct ∧
        (lct.map (fun r => r.2.UF_CRM_ELBA_ID)).Nodup ∧
        (∀ k ∈ lct.map (fun r => r.2.UF_CRM_ELBA_ID), ∀ i : Nat, (i, k) ∉ contactsView st) := by
  intro cps
  induction cps with
  | nil =>
    intro ec st _
    refine ⟨[], ?_, List.nodup_nil, fun k hk => absurd hk (List.not_mem_nil _)⟩
    show st.contacts = st.contacts ++ []
    simp
  | cons cp rest ih =>
    intro ec st hH
    have hHtail : ∀ cp2 ∈ rest, cpElbaId cp2 ≠ "" →
        (∀ p ∈ effectivePersons fetch cp2, personIdPart p ≠ "") ∧
        ((effectivePersons fetch cp2).map personIdPart).Nodup :=
      fun cp2 hcp2 => hH cp2 (List.mem_cons_of_mem _ hcp2)
    by_cases h : cpElbaId cp = ""
    · have hstate : (processAll fetch ec st (cp :: rest)).2.1 =
          (processAll fetch ec st rest).2.1 := by
        show (processAll fetch (processCp fetch ec st cp).1 (processCp fetch ec st cp).2.1 rest).2.1 = _
        rw [processCp_skip h]
      rw [hstate]
      exact ih ec st hHtail
    · rcases hH cp (List.mem_cons_self _ _) h with ⟨hids, hnodup⟩
      have hpid : ∀ p ∈ effectivePersons fetch cp, pidOf p = personIdPart p :=
        fun p hp => pidOf_eq_personIdPart (hids p hp)
      have hpidne : ∀ p ∈ effectivePersons fetch cp, pidOf p ≠ "" := by
        intro p hp
        rw [hpid p hp]
        exact hids p hp
      rcases processCp_spec fetch ec st cp h with
        ⟨cid, lco1, pss, lc1, hw, hco, hct, hnext, hdisj, hlco, hsub, hcond, hmap, hlc⟩
      -- the queried key list is the full per-person key list, without duplicates
      have hlook : lookupIds (cpElbaId cp) (effectivePersons fetch cp) =
          (effectivePersons fetch cp).map (fun p => cpElbaId cp ++ ":" ++ pidOf p) :=
        lookupIds_eq_map hpidne
      have hlooknd : (lookupIds (cpElbaId cp) (effectivePersons fetch cp)).Nodup := by
        rw [hlook]
        rw [List.map_congr_left (fun p hp => by rw [hpid p hp])]
        have hcomp : (effectivePersons fetch cp).map (fun p => cpElbaId cp ++ ":" ++ personIdPart p) =
            ((effectivePersons fetch cp).map personIdPart).map (fun t => cpElbaId cp ++ ":" ++ t) := by
          rw [List.map_map]
          rfl
        rw [hcomp]
        exact List.Nodup.map (key_injective (cpElbaId cp)) hnodup
      -- the created keys form a sublist of the queried keys
      have hkeys : lc1.map (fun r => r.2.UF_CRM_ELBA_ID) =
          pss.map (fun p => cpElbaId cp ++ ":" ++ pidOf p) := by
        have hk1 : lc1.map (fun r => r.2.UF_CRM_ELBA_ID) =
            (lc1.map (fun q => q.2)).map (fun f => f.UF_CRM_ELBA_ID) := by
          rw [List.map_map]
          rfl
        rw [hk1, hmap, List.map_map]
        refine List.map_congr_left ?_
        intro p hp
        show (map_contact_fields_from_person p cp).UF_CRM_ELBA_ID = _
        rw [map_contact_uf]
        rw [hpid p (hsub.subset hp)]
      have hkeyssub : (lc1.map (fun r => r.2.UF_CRM_ELBA_ID)).Sublist
          (lookupIds (cpElbaId cp) (effectivePersons fetch cp)) := by
        rw [hkeys, hlook]
        exact hsub.map _
      -- created keys are new to the destination
      have hnew : ∀ k ∈ lc1.map (fun r => r.2.UF_CRM_ELBA_ID), ∀ i : Nat, (i, k) ∉ contactsView st := by
        intro k hk i
        rw [hkeys] at hk
        rcases List.mem_map.mp hk with ⟨p, hp, hkey⟩
        rcases hcond p hp with ⟨_, hfind⟩
        rw [hkey] at hfind
        refine find_none_not_mem hfind ?_ ?_ i
        · rw [hlook, ← hkey]
          exact List.mem_map_of_mem _ (hsub.subset hp)
        · rw [← hkey]
          exact key_ne_empty _ _
      have hstate : (processAll fetch ec st (cp :: rest)).2.1 =
          (processAll fetch (processCp fetch ec st cp).1 (processCp fetch ec st cp).2.1 rest).2.1 := rfl
      rw [hstate]
      rcases ih (processCp fetch ec st cp).1 (processCp fetch ec st cp).2.1 hHtail with
        ⟨lct2, g1, g2, g3⟩
      have hview : contactsView (processCp fetch ec st cp).2.1 =
          contactsView st ++ lc1.map (fun r => (r.1, r.2.UF_CRM_ELBA_ID)) := by
        unfold contactsView
        rw [hct, List.map_append]
      refine ⟨lc1 ++ lct2, ?_, ?_, ?_⟩
      · rw [g1, hct, List.append_assoc]
      · rw [List.map_append, List.nodup_append]
        refine ⟨hkeyssub.nodup hlooknd, g2, ?_⟩
        intro k hk1 hk2
        -- a key created later would have been visible in the lookup of that later iteration
        rcases List.mem_map.mp hk1 with ⟨r, hr, hkey⟩
        have : (r.1, k) ∈ contactsView (processCp fetch ec st cp).2.1 := by
          rw [hview]
          refine List.mem_append_right _ ?_
          rw [← hkey]
          exact List.mem_map_of_mem _ hr
        exact g3 k hk2 r.1 this
      · intro k hk i
        rw [List.map_append] at hk
        rcases List.mem_append.mp hk with hk1 | hk2
        · exact hnew k hk1 i
        · intro hmem
          have : (i, k) ∈ contactsView (processCp fetch ec st cp).2.1 := by
            rw [hview]
            exact List.mem_append_left _ hmem
          exact g3 k hk2 i this

theorem runSync_eq {fetch : String → List Person} {cps : List Counterparty} {st : BxState}
    (h : ¬ cps.isEmpty = true) :
    runSync fetch cps st =
      ((processAll fetch
          (find_existing_by_elba_ids (companiesView st) ((cps.map cpElbaId).filter (fun e => e ≠ "")))
          st cps).2.1,
        (processAll fetch
          (find_existing_by_elba_ids (companiesView st) ((cps.map cpElbaId).filter (fun e => e ≠ "")))
          st cps).2.2) := by
  simp only [runSync]
  rw [if_neg h]

theorem runSync_nil (fetch : String → List Person) (st : BxState) :
    runSync fetch [] st = (st, 0) := rfl

/-- A counterparty without a derivable external id is transparent to the
counterparty loop except for one extra warning. -/
theorem processAll_skip_mid (fetch : String → List Person) {bad : Counterparty}
    (hbad : cpElbaId bad = "") :
    ∀ (l1 l2 : List Counterparty) (ec : SDict) (st : BxState),
      processAll fetch ec st (l1 ++ bad :: l2) =
        ((processAll fetch ec st (l1 ++ l2)).1,
          (processAll fetch ec st (l1 ++ l2)).2.1,
          (processAll fetch ec st (l1 ++ l2)).2.2 + 1) := by
  intro l1
  induction l1 with
  | nil =>
    intro l2 ec st
    have e1 : processAll fetch ec st ([] ++ bad :: l2) =
        ((processAll fetch (processCp fetch ec st bad).1 (processCp fetch ec st bad).2.1 l2).1,
          (processAll fetch (processCp fetch ec st bad).1 (processCp fetch ec st bad).2.1 l2).2.1,
          (processCp fetch ec st bad).2.2 +
            (processAll fetch (processCp fetch ec st bad).1 (processCp fetch ec st bad).2.1 l2).2.2) := rfl
    rw [e1, processCp_skip hbad]
    dsimp only
    show ((processAll fetch ec st l2).1, (processAll fetch ec st l2).2.1,
      1 + (processAll fetch ec st l2).2.2) = _
    rw [List.nil_append]
    rw [Nat.add_comm]
  | cons cp l1t ih =>
    intro l2 ec st
    have e1 : processAll fetch ec st ((cp :: l1t) ++ bad :: l2) =
        ((processAll fetch (processCp fetch ec st cp).1 (processCp fetch ec st cp).2.1 (l1t ++ bad :: l2)).1,
          (processAll fetch (processCp fetch ec st cp).1 (processCp fetch ec st cp).2.1 (l1t ++ bad :: l2)).2.1,
          (processCp fetch ec st cp).2.2 +
            (processAll fetch (processCp fetch ec st cp).1 (processCp fetch ec st cp).2.1 (l1t ++ bad :: l2)).2.2) := rfl
    have e2 : processAll fetch ec st ((cp :: l1t) ++ l2) =
        ((processAll fetch (processCp fetch ec st cp).1 (processCp fetch ec st cp).2.1 (l1t ++ l2)).1,
          (processAll fetch (processCp fetch ec st cp).1 (processCp fetch ec st cp).2.1 (l1t ++ l2)).2.1,
          (processCp fetch ec st cp).2.2 +
            (processAll fetch (processCp fetch ec st cp).1 (processCp fetch ec st cp).2.1 (l1t ++ l2)).2.2) := rfl
    rw [e1, e2, ih l2 (processCp fetch ec st cp).1 (processCp fetch ec st cp).2.1]
    dsimp only
    rw [Nat.add_assoc]

theorem processAll_single_skip {fetch : String → List Person} {bad : Counterparty}
    (hbad : cpElbaId bad = "") (ec : SDict) (st : BxState) :
    processAll fetch ec st [bad] = (ec, st, 1) := by
  have e1 : processAll fetch ec st [bad] =
      ((processAll fetch (processCp fetch ec st bad).1 (processCp fetch ec st bad).2.1 []).1,
        (processAll fetch (processCp fetch ec st bad).1 (processCp fetch ec st bad).2.1 []).2.1,
        (processCp fetch ec st bad).2.2 +
          (processAll fetch (processCp fetch ec st bad).1 (processCp fetch ec st bad).2.1 []).2.2) := rfl
  rw [e1, processCp_skip hbad]
  rfl

/-- The reconciliation with a no-id counterparty inserted anywhere equals
the reconciliation without it, except for one extra warning. -/
theorem runSync_skip_mid (fetch : String → List Person) (st : BxState) (l1 l2 : List Counterparty)
    (bad : Counterparty) (hbad : cpElbaId bad = "") :
    runSync fetch (l1 ++ bad :: l2) st =
      ((runSync fetch (l1 ++ l2) st).1, (runSync fetch (l1 ++ l2) st).2 + 1) := by
  have hids : (((l1 ++ bad :: l2).map cpElbaId).filter (fun e => e ≠ "")) =
      (((l1 ++ l2).map cpElbaId).filter (fun e => e ≠ "")) := by
    simp [List.map_append, List.filter_append, hbad]
  have hne1 : ¬ ((l1 ++ bad :: l2).isEmpty = true) := by
    simp [List.isEmpty_iff]
  by_cases hemp : (l1 ++ l2).isEmpty = true
  · rcases List.append_eq_nil.mp (List.isEmpty_iff.mp hemp) with ⟨ha, hb⟩
    subst ha
    subst hb
    simp only [List.nil_append]
    rw [runSync_eq (show ¬ (([bad] : List Counterparty).isEmpty = true) from by simp),
      runSync_nil, processAll_single_skip hbad]
  · rw [runSync_eq hne1, runSync_eq hemp, hids,
      processAll_skip_mid fetch hbad l1 l2
        (find_existing_by_elba_ids (companiesView st) (((l1 ++ l2).map cpElbaId).filter (fun e => e ≠ ""))) st]

/-- C1 (failing evaluation): running the reconciliation twice on the same
source data from an empty destination is NOT idempotent.  Source: one
counterparty (id "c1") with one person whose external id lives in
`personId` (no `id` key).  Run 1 creates one company and one contact
(2 records); run 2 finds the company but misses the contact — the stored
contact key is "c1:" (mapper uses `id` only) while the lookup key is
"c1:p1" (`id or personId`) — and creates a second contact, giving 3
records instead of 2. -/
theorem c1_second_run_creates :
    recordCount (runSync fetchNone [cpPersonIdOnly] {}).1 = 2 ∧
    recordCount (runSync fetchNone [cpPersonIdOnly]
      (runSync fetchNone [cpPersonIdOnly] {}).1).1 = 3 := by
  decide

/-- C2 counterexample: the claim says a created contact stores
`<counterpartyExternalId>:<contactExternalId>` with the contact external
id the one the system derives (`id or personId`, as used for the skip
check and the lookup).  For the person with only `personId`, the run
stores "c1:" while the derived composite is "c1:p1". -/
theorem c2_composite_key_counterexample :
    ((runSync fetchNone [cpPersonIdOnly] {}).1.contacts.map (fun r => r.2.UF_CRM_ELBA_ID)) = ["c1:"] ∧
    pidOf personOnlyPid = "p1" ∧
    cpElbaId cpPersonIdOnly ++ ":" ++ pidOf personOnlyPid = "c1:p1" ∧
    ("c1:" : String) ≠ "c1:p1" := by
  decide

/-- C2 amended: every company created by the run stores as
`UF_CRM_ELBA_ID` the derived external id of its counterparty; every
contact created by the run stores the composite of the counterparty id
and the person part derived from the `id` field alone (empty when `id`
is absent, even if `personId` is present). -/
theorem c2_identity_keys_amended (fetch : String → List Person) (cps : List Counterparty) (st : BxState) :
    (∀ r ∈ (runSync fetch cps st).1.companies.drop st.companies.length,
      ∃ cp ∈ cps, r.2 = map_company_fields_from_cp cp ∧
        r.2.UF_CRM_ELBA_ID = cpElbaId cp ∧ cpElbaId cp ≠ "") ∧
    (∀ r ∈ (runSync fetch cps st).1.contacts.drop st.contacts.length,
      ∃ cp ∈ cps, ∃ p ∈ effectivePersons fetch cp,
        r.2.UF_CRM_ELBA_ID = cpElbaId cp ++ ":" ++ personIdPart p ∧ cpElbaId cp ≠ "") := by
  by_cases hcps : cps.isEmpty = true
  · have hnil : cps = [] := List.isEmpty_iff.mp hcps
    subst hnil
    rw [runSync_nil]
    constructor
    · intro r hr
      rw [List.drop_length] at hr
      exact absurd hr (List.not_mem_nil _)
    · intro r hr
      rw [List.drop_length] at hr
      exact absurd hr (List.not_mem_nil _)
  · rw [runSync_eq hcps]
    dsimp only
    rcases processAll_created fetch cps
      (find_existing_by_elba_ids (companiesView st) ((cps.map cpElbaId).filter (fun e => e ≠ "")))
      st with ⟨lco, lct, h1, h2, _, h4, h5⟩
    constructor
    · intro r hr
      rw [h1, List.drop_left] at hr
      rcases h4 r hr with ⟨cp, hcp, heq, hne⟩
      refine ⟨cp, hcp, heq, ?_, hne⟩
      rw [heq, map_company_uf]
    · intro r hr
      rw [h2, List.drop_left] at hr
      rcases h5 r hr with ⟨cp, hcp, p, hp, c, hpid, hne, heq⟩
      refine ⟨cp, hcp, p, hp, ?_, hne⟩
      rw [heq]
      rfl

/-- C2 amended witness: the company and the contact created for `cpW`
(one counterparty "c9" with one person with id "p7") carry the expected
keys. -/
theorem c2_identity_keys_amended_witness :
    (∃ cp ∈ [cpW], ((0 : Nat), map_company_fields_from_cp cpW).2 = map_company_fields_from_cp cp ∧
      ((0 : Nat), map_company_fields_from_cp cpW).2.UF_CRM_ELBA_ID = cpElbaId cp ∧ cpElbaId cp ≠ "") ∧
    (∃ cp ∈ [cpW], ∃ p ∈ effectivePersons fetchNone cp,
      ((1 : Nat), ctRecW).2.UF_CRM_ELBA_ID = cpElbaId cp ++ ":" ++ personIdPart p ∧ cpElbaId cp ≠ "") :=
  ⟨(c2_identity_keys_amended fetchNone [cpW] {}).1 (0, map_company_fields_from_cp cpW) (by decide),
    (c2_identity_keys_amended fetchNone [cpW] {}).2 (1, ctRecW) (by decide)⟩

/-- C3 (failing evaluation): the composite key used for the batch
existence lookup and the `UF_CRM_ELBA_ID` written into the created
contact disagree for a person that has a `personId` but no `id`: the
lookup key list holds "c1:p1" while the mapper writes "c1:". -/
theorem c3_lookup_create_key_mismatch :
    lookupIds (cpElbaId cpPersonIdOnly) (effectivePersons fetchNone cpPersonIdOnly) = ["c1:p1"] ∧
    (map_contact_fields_from_person personOnlyPid cpPersonIdOnly).UF_CRM_ELBA_ID = "c1:" ∧
    ("c1:p1" : String) ≠ "c1:" := by
  decide

/-- C4 counterexample: the same person external id repeated in the inline
person list of one counterparty produces two created contacts with the
same identity key in one run — `existing_contacts` is not updated after
a contact creation. -/
theorem c4_duplicate_contact_counterexample :
    ((runSync fetchNone [cpDup] {}).1.contacts.map (fun r => r.2.UF_CRM_ELBA_ID)) = ["c1:p", "c1:p"] ∧
    ¬ (((runSync fetchNone [cpDup] {}).1.contacts.map (fun r => r.2.UF_CRM_ELBA_ID)).Nodup) := by
  decide

/-- C4 amended: within one run at most one company per identity key is
ever created (unconditionally: lookup-before-create plus the immediate
in-memory map update); at most one contact per identity key is created
provided every person of every processed counterparty has a truthy `id`
field and the person ids are distinct within each person list (the
contacts map is NOT updated after creation, so a duplicated person id
inside one list defeats the invariant — see the counterexample). -/
theorem c4_at_most_one_per_key (fetch : String → List Person) (cps : List Counterparty) (st : BxState) :
    ((((runSync fetch cps st).1.companies.drop st.companies.length).map
      (fun r => r.2.UF_CRM_ELBA_ID)).Nodup) ∧
    ((∀ cp ∈ cps, cpElbaId cp ≠ "" →
        (∀ p ∈ effectivePersons fetch cp, personIdPart p ≠ "") ∧
        ((effectivePersons fetch cp).map personIdPart).Nodup) →
      (((runSync fetch cps st).1.contacts.drop st.contacts.length).map
        (fun r => r.2.UF_CRM_ELBA_ID)).Nodup) := by
  by_cases hcps : cps.isEmpty = true
  · have hnil : cps = [] := List.isEmpty_iff.mp hcps
    subst hnil
    rw [runSync_nil]
    constructor
    · rw [List.drop_length]
      exact List.nodup_nil
    · intro _
      rw [List.drop_length]
      exact List.nodup_nil
  · rw [runSync_eq hcps]
    dsimp only
    constructor
    · rcases processAll_company_keys fetch cps
        (find_existing_by_elba_ids (companiesView st) ((cps.map cpElbaId).filter (fun e => e ≠ "")))
        st with ⟨lco, h1, h2, _⟩
      rw [h1, List.drop_left]
      exact h2
    · intro hH
      rcases processAll_contact_keys fetch cps
        (find_existing_by_elba_ids (companiesView st) ((cps.map cpElbaId).filter (fun e => e ≠ "")))
        st hH with ⟨lct, h1, h2, _⟩
      rw [h1, List.drop_left]
      exact h2

/-- C4 amended witness: for the run on `cpW` from an empty destination,
both created-key lists are duplicate-free. -/
theorem c4_at_most_one_per_key_witness :
    ((((runSync fetchNone [cpW] {}).1.companies.drop (({} : BxState)).companies.length).map
      (fun r => r.2.UF_CRM_ELBA_ID)).Nodup) ∧
    ((((runSync fetchNone [cpW] {}).1.contacts.drop (({} : BxState)).contacts.length).map
      (fun r => r.2.UF_CRM_ELBA_ID)).Nodup) := by
  have h := c4_at_most_one_per_key fetchNone [cpW] {}
  exact ⟨h.1, h.2 (by decide)⟩

/-- C6 counterexample: a person record with no derivable external id is
skipped with ZERO logged warnings (the code has no `logger.warning` in
the person loop), although the claim demands one logged warning for the
skip; the destination writes for that record are still zero. -/
theorem c6_silent_person_skip_counterexample :
    (runSync fetchNone [cpSilentPerson] {}).2 = 0 ∧
    (runSync fetchNone [cpSilentPerson] {}).1.contacts = [] := by
  decide

/-- C6 amended: a counterparty without a derivable external id causes
zero destination writes, exactly one logged warning, and the run
continues (the run equals the run without that record, plus one
warning); the only warning of the loop is that counterparty skip (per
iteration warnings are 1 exactly when the id is missing); a person
without a derivable external id causes zero destination writes and the
loop continues, but NO warning is logged (silent skip). -/
theorem c6_skip_behaviour_amended :
    (∀ (fetch : String → List Person) (st : BxState) (l1 l2 : List Counterparty) (bad : Counterparty),
        cpElbaId bad = "" →
        runSync fetch (l1 ++ bad :: l2) st =
          ((runSync fetch (l1 ++ l2) st).1, (runSync fetch (l1 ++ l2) st).2 + 1)) ∧
    (∀ (fetch : String → List Person) (ec : SDict) (st : BxState) (cp : Counterparty),
        (processCp fetch ec st cp).2.2 = if cpElbaId cp = "" then 1 else 0) ∧
    (∀ (cp : Counterparty) (cpId : String) (cid : Nat) (exCt : SDict) (st : BxState) (p : Person),
        pidOf p = "" → contact_step cp cpId cid exCt st p = st) := by
  refine ⟨?_, processCp_warn, ?_⟩
  · intro fetch st l1 l2 bad hbad
    exact runSync_skip_mid fetch st l1 l2 bad hbad
  · intro cp cpId cid exCt st p hp
    rw [contact_step_eq, if_pos hp]

/-- C6 amended witness: concrete instances of the three parts. -/
theorem c6_skip_behaviour_amended_witness :
    runSync fetchNone [cpNoId] {} =
      ((runSync fetchNone [] {}).1, (runSync fetchNone [] {}).2 + 1) ∧
    (processCp fetchNone SDict.empty {} cpNoId).2.2 = 1 ∧
    contact_step cpW "c9" 0 SDict.empty {} pNoId = {} := by
  refine ⟨c6_skip_behaviour_amended.1 fetchNone {} [] [] cpNoId (by decide), ?_, ?_⟩
  · have h := c6_skip_behaviour_amended.2.1 fetchNone SDict.empty {} cpNoId
    rw [h]
    decide
  · exact c6_skip_behaviour_amended.2.2 cpW "c9" 0 SDict.empty {} pNoId (by decide)

/-- C9: every contact appended by the run carries `COMPANY_ID = some c`
where `c` is the destination id of a company whose identity key is the
counterparty prefix of the contact key, and that company id was obtained
strictly before the contact creation: either the company pre-existed in
the destination (found by the lookup) or it was created earlier in the
run (`c` smaller than the contact destination id, ids being assigned in
creation order). -/
theorem c9_parent_linkage (fetch : String → List Person) (cps : List Counterparty) (st : BxState) :
    ∀ r ∈ (runSync fetch cps st).1.contacts.drop st.contacts.length,
      ∃ c f, r.2.COMPANY_ID = some c ∧
        (c, f) ∈ (runSync fetch cps st).1.companies ∧
        (∃ pid, r.2.UF_CRM_ELBA_ID = f.UF_CRM_ELBA_ID ++ ":" ++ pid) ∧
        ((c, f) ∈ st.companies ∨ c < r.1) := by
  by_cases hcps : cps.isEmpty = true
  · have hnil : cps = [] := List.isEmpty_iff.mp hcps
    subst hnil
    rw [runSync_nil]
    intro r hr
    rw [List.drop_length] at hr
    exact absurd hr (List.not_mem_nil _)
  · rw [runSync_eq hcps]
    dsimp only
    intro r hr
    have hec0 : ∀ k c, find_existing_by_elba_ids (companiesView st)
        ((cps.map cpElbaId).filter (fun e => e ≠ "")) k = some c →
        ∃ f, (c, f) ∈ st.companies ∧ f.UF_CRM_ELBA_ID = k := by
      intro k c hk
      rcases find_some hk with ⟨hmem, _⟩
      exact companiesView_mem hmem
    rcases processAll_parent_link fetch cps
      (find_existing_by_elba_ids (companiesView st) ((cps.map cpElbaId).filter (fun e => e ≠ "")))
      st hec0 with ⟨lco, lct, h1, h2, _, h4⟩
    rw [h2, List.drop_left] at hr
    rcases h4 r hr with ⟨_, c, f, hcf, hmem, hpid, hord⟩
    exact ⟨c, f, hcf, hmem, hpid, hord⟩

/-- C9 witness: the contact created for `pW` under `cpW` from an empty
destination links to the company created in the same run, whose id 0 is
smaller than the contact id 1. -/
theorem c9_parent_linkage_witness :
    ∃ c f, ((1 : Nat), ctRecW).2.COMPANY_ID = some c ∧
      (c, f) ∈ (runSync fetchNone [cpW] {}).1.companies ∧
      (∃ pid, ((1 : Nat), ctRecW).2.UF_CRM_ELBA_ID = f.UF_CRM_ELBA_ID ++ ":" ++ pid) ∧
      ((c, f) ∈ ({} : BxState).companies ∨ c < (1 : Nat)) :=
  c9_parent_linkage fetchNone [cpW] {} (1, ctRecW) (by decide)

end ElbaSync
